import Mathlib

/-!
# TaskPulse — verification of the statistics / sync core

Shallow embedding of the logic of `src/app/page.tsx` (the TaskPulse client).

Modelling conventions:

* Calendar days are modelled by their chronological day number (an `Int`,
  local time, day `0` standing for 1970-01-01, which was a Thursday).  The
  source represents a day by its `YYYY-MM-DD` string `dayKey`; since `dayKey`
  is injective on dates, equality of day-key strings is equality of day
  numbers, `addDays` is addition, and the JS `Date.getDay()` weekday
  (0 = Sunday .. 6 = Saturday) of day `d` is `(d + 4) % 7`.
* Timestamps (`Date.now()`, `createdAt`, `doneAt`) are `Int` milliseconds.
* JS `undefined`/`null` for optional fields is `Option.none`.
* The fire-and-forget remote calls of the sync layer are recorded as a list
  of attempted `RemoteOp`s in the app state; the `localStorage` persistence
  effect (which rewrites the cache whenever the collection changes) is folded
  into each mutation step as a synchronous cache update.
* String rendering helpers (`labelWeekdayEN`, `labelDate`, SVG paths) are
  presentational and out of scope per the specification.
-/

namespace TaskPulse

/-- Task category, from `type Category` in the source. -/
inductive Category
  | daily
  | workout
  | work
deriving DecidableEq

/-- Body-part tag, from `type WorkoutPart` in the source. -/
inductive WorkoutPart
  | chest
  | back
  | legs
  | arms
  | shoulders
  | core
  | cardio
deriving DecidableEq

/-- Weekday key of the workout plan, from `type WeekdayKey` in the source. -/
inductive WeekdayKey
  | mon
  | tue
  | wed
  | thu
  | fri
  | sat
  | sun
deriving DecidableEq

/-- The task record, from `type Todo` in the source.  A calendar day
(`YYYY-MM-DD` day-key string in the source) is its chronological day number,
an `Int`. -/
structure Todo where
  id : String
  text : String
  done : Bool
  createdAt : Int
  category : Category
  doneAt : Option Int
  doneDay : Option Int
  dueDay : Option Int
  workoutPart : Option WorkoutPart
deriving DecidableEq

/-- Task-list filter, from `type Filter` in the source. -/
inductive Filter
  | all
  | today
  | tomorrow
  | week
  | active
  | done
deriving DecidableEq

/-- One row of the weekly workout plan. -/
structure PlanRow where
  enabled : Bool
  part : WorkoutPart
deriving DecidableEq

/-- `type WorkoutPlan = Record<WeekdayKey, {enabled, part}>` from the source. -/
abbrev WorkoutPlan := WeekdayKey → PlanRow

/-- `partLabel` from the source. -/
def partLabel : WorkoutPart → String
  | .chest => "Chest"
  | .back => "Back"
  | .legs => "Legs"
  | .arms => "Arms"
  | .shoulders => "Shoulders"
  | .core => "Core"
  | .cardio => "Cardio"

/-- `defaultPlan` from the source. -/
def defaultPlan : WorkoutPlan
  | .mon => { enabled := false, part := .chest }
  | .tue => { enabled := false, part := .back }
  | .wed => { enabled := false, part := .legs }
  | .thu => { enabled := false, part := .shoulders }
  | .fri => { enabled := false, part := .arms }
  | .sat => { enabled := false, part := .core }
  | .sun => { enabled := false, part := .cardio }

/-! ## Date helpers (source: `addDays`, `startOfWeekMonday`, `weekKeysMonSun`,
`toWeekdayKeyFromDate`; `dayKey` is the identity under the day-number model) -/

/-- `addDays` from the source: a new date offset by `days`. -/
def addDays (base : Int) (days : Int) : Int := base + days

/-- The JS `Date.getDay()` weekday (0 = Sunday .. 6 = Saturday) of a day number.
Day number 0 (1970-01-01) was a Thursday, weekday 4; `Int.emod` is nonnegative here,
matching the 0..6 range `getDay` returns for any date. -/
def jsWeekday (d : Int) : Int := (d + 4) % 7

/-- `startOfWeekMonday` from the source: the Monday of the week containing `d`
(`diff = day === 0 ? -6 : 1 - day`). -/
def startOfWeekMonday (d : Int) : Int :=
  d + (if jsWeekday d = 0 then -6 else 1 - jsWeekday d)

/-- `weekKeysMonSun` from the source: the seven day keys Monday..Sunday of the
week containing `d`. -/
def weekKeysMonSun (d : Int) : List Int :=
  (List.range 7).map (fun i : Nat => addDays (startOfWeekMonday d) (i : Int))

/-- `toWeekdayKeyFromDate` from the source. -/
def toWeekdayKeyFromDate (d : Int) : WeekdayKey :=
  let day := jsWeekday d
  if day = 0 then .sun
  else if day = 1 then .mon
  else if day = 2 then .tue
  else if day = 3 then .wed
  else if day = 4 then .thu
  else if day = 5 then .fri
  else .sat

/-! ## Firestore mappers (source: `toFirestoreTodo`, `fromFirestoreTodo`) -/

/-- The persisted document shape of a task.  Every field may be `null`/missing
(the source deserializer coerces arbitrary data with defaults).  The
server-stamped `updatedAt: serverTimestamp()` field is not part of the logical
task and is omitted. -/
structure PersistedTodo where
  text : Option String
  done : Option Bool
  createdAt : Option Int
  category : Option Category
  doneAt : Option Int
  doneDay : Option Int
  dueDay : Option Int
  workoutPart : Option WorkoutPart
deriving DecidableEq

/-- `toFirestoreTodo` from the source: optional fields are persisted
absent-as-null (`?? null`). -/
def toFirestoreTodo (t : Todo) : PersistedTodo :=
  { text := some t.text
    done := some t.done
    createdAt := some t.createdAt
    category := some t.category
    doneAt := t.doneAt
    doneDay := t.doneDay
    dueDay := t.dueDay
    workoutPart := t.workoutPart }

/-- `fromFirestoreTodo` from the source: every field is coerced with a default
(`category ?? "daily"`, `done ?? false`, `createdAt ?? Date.now()`, text
`?? ""`; `null`/missing optional fields become absent).  `now` is the read-time
clock used for the `createdAt` default. -/
def fromFirestoreTodo (id : String) (data : PersistedTodo) (now : Int) : Todo :=
  { id := id
    text := data.text.getD ""
    done := data.done.getD false
    createdAt := data.createdAt.getD now
    category := data.category.getD .daily
    doneAt := data.doneAt
    doneDay := data.doneDay
    dueDay := data.dueDay
    workoutPart := data.workoutPart }

/-! ## Chart helper (source: `niceCeil`) -/

/-- `niceCeil` from the source.  The source computes
`p = 10 ** floor(log10 n)` and the mantissa `m = n / p` with JS doubles; on the
integer counts this function is fed (chart values are task counts) that equals
the exact arithmetic used here: `p = 10 ^ Nat.log 10 n` and `m ≤ c ↔ n ≤ c * p`. -/
def niceCeil (n : Nat) : Nat :=
  if n ≤ 10 then 10
  else if n ≤ 20 then 20
  else if n ≤ 50 then 50
  else if n ≤ 100 then 100
  else
    let p := 10 ^ Nat.log 10 n
    if n ≤ 2 * p then 2 * p
    else if n ≤ 5 * p then 5 * p
    else 10 * p

/-! ## Derived statistics -/

/-- Selector for the `planned` accumulation of `weekStats`: the source tests
`t.dueDay && t.dueDay in planned`. -/
def dueSel (t : Todo) : Option Int := t.dueDay

/-- Selector for the `done` accumulations of `weekStats` and `last14`: the
source tests `t.done && t.doneDay && t.doneDay in rec`. -/
def doneSel (t : Todo) : Option Int := if t.done then t.doneDay else none

/-- One update of a `Record<string, number>` that was initialized to `0` on
`keys`: the source's `if (d in rec) rec[d] += 1` (key membership of the record
is membership in `keys`). -/
def bumpIfKey (keys : List Int) (m : Int → Nat) (d : Int) : Int → Nat :=
  if d ∈ keys then fun k => if k = d then m d + 1 else m k else m

/-- One loop iteration of the source's per-day accumulation. -/
def recStep (keys : List Int) (sel : Todo → Option Int) (m : Int → Nat) (t : Todo) : Int → Nat :=
  match sel t with
  | some d => bumpIfKey keys m d
  | none => m

/-- The source's per-day accumulation loop: a record initialized to `0` on
`keys`, bumped at `sel t` for each task. -/
def recCount (keys : List Int) (sel : Todo → Option Int) (todos : List Todo) : Int → Nat :=
  todos.foldl (recStep keys sel) (fun _ => 0)

/-- One entry of the `weekStats` array from the source (the `wd`/`date` string
labels, being pure renderings of `key`, are omitted). -/
structure WeekDayStat where
  key : Int
  planned : Nat
  done : Nat
  planText : Option String
deriving DecidableEq

/-- `weekStats` from the source: per day key of the current Mon-Sun week, the
number of tasks planned (`dueDay` present and equal to the key) and done
(`done` with `doneDay` equal to the key), plus the plan label for the workout
category. -/
def weekStats (todos : List Todo) (plan : WorkoutPlan) (category : Category) (now : Int) :
    List WeekDayStat :=
  let keys := weekKeysMonSun now
  let plannedRec := recCount keys dueSel todos
  let doneRec := recCount keys doneSel todos
  keys.map (fun k =>
    let planRow := plan (toWeekdayKeyFromDate k)
    { key := k
      planned := plannedRec k
      done := doneRec k
      planText :=
        if category = Category.workout ∧ planRow.enabled = true then
          some (partLabel planRow.part)
        else none })

/-- The 14 day keys of `last14` from the source, oldest first
(`for i = 13 .. 0: push (addDays end (-i))`). -/
def last14Keys (now : Int) : List Int :=
  (List.range 14).map (fun i : Nat => addDays now ((i : Int) - 13))

/-- The source's running cumulative sum
(`let running = 0; keys.map(k => { running += perDay[k]; return running })`). -/
def cumSum (acc : Nat) : List Nat → List Nat
  | [] => []
  | x :: xs => (acc + x) :: cumSum (acc + x) xs

/-- `last14` from the source: cumulative counts of tasks completed on each of
the 14 calendar days ending today (the `DD.MM.` labels are omitted). -/
def last14 (todos : List Todo) (now : Int) : List Nat :=
  let keys := last14Keys now
  let perDay := recCount keys doneSel todos
  cumSum 0 (keys.map perDay)

/-- The contents of the source's `doneDays` set in `streak` (`if (t.done &&
t.doneDay) doneDays.add(t.doneDay)`); only membership is ever used, so the
JS `Set` is modelled by the list of added elements. -/
def doneDaysOf (todos : List Todo) : List Int :=
  todos.filterMap (fun t => if t.done then t.doneDay else none)

/-- The `while (true)` loop of `streak`, with explicit fuel: count days walking
backward from `d` while the day is in the done-day set.  The loop visits
pairwise-distinct days of the finite set `s`, so any fuel larger than the
number of done days is enough (see `streakAux_stable_fuel` below). -/
def streakAux (s : List Int) : Nat → Int → Nat
  | 0, _ => 0
  | fuel + 1, d => if d ∈ s then streakAux s fuel (d - 1) + 1 else 0

/-- `streak` from the source. -/
def streak (todos : List Todo) (today : Int) : Nat :=
  let s := doneDaysOf todos
  streakAux s (s.length + 1) today

/-! ## Task list view (source: `visibleTodos`), and mutations -/

/-- Stable insertion of `a` into `l`: `a` goes before the first `b` with
`le a b`. -/
def insertLe {α : Type} (le : α → α → Bool) (a : α) : List α → List α
  | [] => [a]
  | b :: bs => if le a b then a :: b :: bs else b :: insertLe le a bs

/-- Stable sort by `le` (insertion sort).  JS `Array.prototype.sort` is
required to be stable, and the source's comparator is a total preorder, so any
stable sort — this one included — models it observationally. -/
def sortByLe {α : Type} (le : α → α → Bool) : List α → List α
  | [] => []
  | a :: as => insertLe le a (sortByLe le as)

/-- The comparator of `visibleTodos` as a `≤`-test (`comparator a b ≤ 0`):
ascending effective due key (`dueDay ?? today`), then incomplete before
complete, then descending `createdAt`. -/
def todoLe (today : Int) (a b : Todo) : Bool :=
  let ad := a.dueDay.getD today
  let bd := b.dueDay.getD today
  if ad < bd then true
  else if bd < ad then false
  else if a.done ≠ b.done then !a.done
  else decide (b.createdAt ≤ a.createdAt)

/-- `visibleTodos` from the source: sequential filters on the category's
tasks, then the sort. -/
def visibleTodos (todosInCat : List Todo) (filter : Filter) (now : Int) : List Todo :=
  let today := now
  let tomorrow := addDays now 1
  let weekKeys := weekKeysMonSun now
  let f1 := if filter = Filter.active then todosInCat.filter (fun t => !t.done) else todosInCat
  let f2 := if filter = Filter.done then f1.filter (fun t => t.done) else f1
  let f3 := if filter = Filter.today then
      f2.filter (fun t => decide (t.dueDay.getD today = today)) else f2
  let f4 := if filter = Filter.tomorrow then
      f3.filter (fun t => decide (t.dueDay.getD today = tomorrow)) else f3
  let f5 := if filter = Filter.week then
      f4.filter (fun t => decide (t.dueDay.getD today ∈ weekKeys)) else f4
  sortByLe (todoLe today) f5

/-- `clearDone` from the source (the optimistic local part):
`prev.filter(t => !(t.category === category && t.done))`. -/
def clearDone (todos : List Todo) (category : Category) : List Todo :=
  todos.filter (fun t => !(decide (t.category = category) && t.done))

/-- The `next` task built by `toggleTodo` in the source. -/
def toggleNext (current : Todo) (now : Int) (today : Int) : Todo :=
  if current.done then { current with done := false, doneAt := none, doneDay := none }
  else { current with done := true, doneAt := some now, doneDay := some today }

/-- `toggleTodo` from the source (the optimistic local part): replace the task
with the given id by its toggled version. -/
def toggleTodo (todos : List Todo) (id : String) (now : Int) (today : Int) : List Todo :=
  match todos.find? (fun t => t.id == id) with
  | none => todos
  | some current =>
    let next := toggleNext current now today
    todos.map (fun t => if t.id == id then next else t)

/-! ## Adding tasks (source: `addTodo`, `addTodoInline`) and the sync step -/

/-- JS `String.prototype.trim`: strip leading and trailing whitespace. -/
def trimChars (s : List Char) : List Char :=
  (((s.dropWhile Char.isWhitespace).reverse).dropWhile Char.isWhitespace).reverse

/-- JS `String.prototype.trim` on strings. -/
def jsTrim (s : String) : String := ⟨trimChars s.data⟩

/-- The `base` record of `addTodo`/`addTodoInline`. -/
def mkBaseTodo (newId trimmed : String) (now : Int) (category : Category) : Todo :=
  { id := newId
    text := trimmed
    done := false
    createdAt := now
    category := category
    doneAt := none
    doneDay := none
    dueDay := none
    workoutPart := none }

/-- The new task built by `addTodo` in the source: workout gets the selected
due day and workout part, work gets the due day, daily gets neither. -/
def mkAddTodo (newId trimmed : String) (now : Int) (category : Category) (due : Int)
    (workoutPart : WorkoutPart) : Todo :=
  let base := mkBaseTodo newId trimmed now category
  match category with
  | .workout => { base with dueDay := some due, workoutPart := some workoutPart }
  | .work => { base with dueDay := some due }
  | .daily => base

/-- The new task built by `addTodoInline` in the source: workout gets the
clicked day and the plan's part for that weekday when enabled (else the
currently selected part), work gets the day, daily gets neither. -/
def mkInlineTodo (newId trimmed : String) (now : Int) (category : Category) (day : Int)
    (plan : WorkoutPlan) (workoutPart : WorkoutPart) : Todo :=
  let base := mkBaseTodo newId trimmed now category
  match category with
  | .workout =>
    let planned := plan (toWeekdayKeyFromDate day)
    let part := if planned.enabled then planned.part else workoutPart
    { base with dueDay := some day, workoutPart := some part }
  | .work => { base with dueDay := some day }
  | .daily => base

/-- An attempted remote call of the sync layer (fire-and-forget). -/
inductive RemoteOp
  | upsert (id : String) (doc : PersistedTodo)
  | delete (id : String)
deriving DecidableEq

/-- The task-store state: the auth session, the in-memory collection, the
local-cache mirror, and the log of attempted remote calls. -/
structure AppState where
  user : Option String
  todos : List Todo
  cache : List Todo
  remote : List RemoteOp
deriving DecidableEq

/-- One `addTodo` user action from the source, as a state step: `if (!user)
return;` then trim-and-reject-empty, then the optimistic local prepend (the
`localStorage` effect immediately mirrors the new collection into the cache)
and the attempted remote upsert. -/
def addTodoStep (s : AppState) (formText : String) (category : Category) (due : Int)
    (workoutPart : WorkoutPart) (now : Int) (newId : String) : AppState :=
  match s.user with
  | none => s
  | some _ =>
    let trimmed := jsTrim formText
    if trimmed = "" then s
    else
      let newTodo := mkAddTodo newId trimmed now category due workoutPart
      { s with
        todos := newTodo :: s.todos
        cache := newTodo :: s.todos
        remote := s.remote ++ [RemoteOp.upsert newId (toFirestoreTodo newTodo)] }

/-! ## Helper lemmas -/

theorem mem_insertLe {α : Type} (le : α → α → Bool) (x a : α) :
    ∀ l : List α, a ∈ insertLe le x l ↔ a = x ∨ a ∈ l
  | [] => by simp [insertLe]
  | b :: bs => by
    by_cases h : le x b = true
    · simp [insertLe, h]
    · simp only [insertLe]
      rw [if_neg h]
      simp only [List.mem_cons, mem_insertLe le x a bs]
      tauto

theorem mem_sortByLe {α : Type} (le : α → α → Bool) (a : α) :
    ∀ l : List α, a ∈ sortByLe le l ↔ a ∈ l
  | [] => by simp [sortByLe]
  | b :: bs => by
    simp [sortByLe, mem_insertLe, mem_sortByLe le a bs]

/-! ## C5: toggling a task -/

/-- C5: toggling a not-done task marks it done, stamping `doneAt` with the
current time and `doneDay` with today's day key; toggling the result again
marks it not-done and clears both stamps; and on both results `doneAt` is
present if and only if `done` is true. -/
theorem toggle_done_roundtrip (t : Todo) (now now2 : Int) (today today2 : Int)
    (h : t.done = false) :
    (toggleNext t now today).done = true ∧
    (toggleNext t now today).doneAt = some now ∧
    (toggleNext t now today).doneDay = some today ∧
    (toggleNext (toggleNext t now today) now2 today2).done = false ∧
    (toggleNext (toggleNext t now today) now2 today2).doneAt = none ∧
    (toggleNext (toggleNext t now today) now2 today2).doneDay = none ∧
    ((toggleNext t now today).doneAt.isSome = true ↔
      (toggleNext t now today).done = true) ∧
    ((toggleNext (toggleNext t now today) now2 today2).doneAt.isSome = true ↔
      (toggleNext (toggleNext t now today) now2 today2).done = true) := by
  simp [toggleNext, h]

/-- Witness for C5 at a concrete not-done task. -/
theorem toggle_done_roundtrip_witness :
    (toggleNext (mkBaseTodo "a" "x" 5 Category.daily) 7 3).done = true ∧
    (toggleNext (mkBaseTodo "a" "x" 5 Category.daily) 7 3).doneAt = some 7 ∧
    (toggleNext (mkBaseTodo "a" "x" 5 Category.daily) 7 3).doneDay = some 3 ∧
    (toggleNext (toggleNext (mkBaseTodo "a" "x" 5 Category.daily) 7 3) 9 4).done = false ∧
    (toggleNext (toggleNext (mkBaseTodo "a" "x" 5 Category.daily) 7 3) 9 4).doneAt = none ∧
    (toggleNext (toggleNext (mkBaseTodo "a" "x" 5 Category.daily) 7 3) 9 4).doneDay = none ∧
    ((toggleNext (mkBaseTodo "a" "x" 5 Category.daily) 7 3).doneAt.isSome = true ↔
      (toggleNext (mkBaseTodo "a" "x" 5 Category.daily) 7 3).done = true) ∧
    ((toggleNext (toggleNext (mkBaseTodo "a" "x" 5 Category.daily) 7 3) 9 4).doneAt.isSome = true ↔
      (toggleNext (toggleNext (mkBaseTodo "a" "x" 5 Category.daily) 7 3) 9 4).done = true) :=
  toggle_done_roundtrip (mkBaseTodo "a" "x" 5 Category.daily) 7 9 3 4 rfl

/-! ## C6: serialization round-trip -/

/-- C6: deserializing the serialized form of a task with the same id
reproduces the task exactly (the server-stamped `updatedAt` is not part of the
logical task and is not persisted in the model); in particular this holds for
fully-populated tasks. -/
theorem firestore_roundtrip (t : Todo) (now : Int) :
    fromFirestoreTodo t.id (toFirestoreTodo t) now = t := rfl

/-! ## C9: bulk clear-done -/

/-- C9: `clearDone` removes exactly the done tasks of the selected category;
the remaining collection is a sublist of the original (every surviving task is
unchanged and in its original position), and a task survives iff it is not a
done task of the selected category. -/
theorem clearDone_frame (todos : List Todo) (cat : Category) :
    List.Sublist (clearDone todos cat) todos ∧
    (∀ t : Todo, t ∈ clearDone todos cat ↔
      t ∈ todos ∧ ¬(t.category = cat ∧ t.done = true)) := by
  refine ⟨List.filter_sublist _, fun t => ?_⟩
  simp only [clearDone, List.mem_filter]
  constructor
  · rintro ⟨ht, hc⟩
    refine ⟨ht, fun hb => ?_⟩
    rw [hb.1, hb.2] at hc
    simp at hc
  · rintro ⟨ht, hn⟩
    refine ⟨ht, ?_⟩
    by_cases h1 : t.category = cat
    · have h2 : t.done = false := by
        by_contra h2
        exact hn ⟨h1, by revert h2; cases t.done <;> simp⟩
      simp [h1, h2]
    · simp [h1]

/-! ## C10: category-conditional fields at creation -/

/-- C10: a task created by `addTodo` or `addTodoInline` has `dueDay` present
iff its category is work or workout (daily tasks are created without a due
day even when one is selected in the form), and `workoutPart` present iff its
category is workout. -/
theorem created_todo_field_invariant (newId trimmed : String) (now : Int) (cat : Category)
    (due day : Int) (plan : WorkoutPlan) (wp : WorkoutPart) :
    ((mkAddTodo newId trimmed now cat due wp).dueDay.isSome = true ↔
      (cat = Category.work ∨ cat = Category.workout)) ∧
    ((mkAddTodo newId trimmed now cat due wp).workoutPart.isSome = true ↔
      cat = Category.workout) ∧
    ((mkInlineTodo newId trimmed now cat day plan wp).dueDay.isSome = true ↔
      (cat = Category.work ∨ cat = Category.workout)) ∧
    ((mkInlineTodo newId trimmed now cat day plan wp).workoutPart.isSome = true ↔
      cat = Category.workout) := by
  cases cat <;> simp [mkAddTodo, mkInlineTodo, mkBaseTodo]

/-! ## C1: adding a task while signed out -/

/-- A signed-out app state with an empty collection. -/
def signedOutState : AppState :=
  { user := none, todos := [], cache := [], remote := [] }

/-- Counterexample to C1 as stated: while signed out, adding the nonempty task
"Buy milk" does NOT append it to the local collection — `addTodo` starts with
`if (!user) return;`, so the whole action is a no-op (the collection stays
empty instead of growing by one). -/
theorem addTodo_signedOut_counterexample :
    signedOutState.user = none ∧
    jsTrim "Buy milk" ≠ "" ∧
    (addTodoStep signedOutState "Buy milk" Category.daily 0 WorkoutPart.chest 0 "id1").todos = [] ∧
    (addTodoStep signedOutState "Buy milk" Category.daily 0 WorkoutPart.chest 0
        "id1").todos.length ≠ signedOutState.todos.length + 1 := by
  decide

/-- C1 (amended): while signed out, an add-task action is a complete no-op —
the in-memory collection, the local cache, and the log of attempted remote
calls are all unchanged (in particular no remote write is attempted). -/
theorem addTodo_signedOut_noop (s : AppState) (formText : String) (cat : Category)
    (due : Int) (wp : WorkoutPart) (now : Int) (newId : String) (h : s.user = none) :
    addTodoStep s formText cat due wp now newId = s := by
  unfold addTodoStep
  rw [h]

/-- Witness for the amended C1 at a concrete signed-out state. -/
theorem addTodo_signedOut_noop_witness :
    signedOutState.user = none ∧
    addTodoStep signedOutState "Buy milk" Category.daily 0 WorkoutPart.chest 0 "id1" =
      signedOutState :=
  ⟨rfl, addTodo_signedOut_noop signedOutState "Buy milk" Category.daily 0 WorkoutPart.chest 0
    "id1" rfl⟩

/-! ## Per-day accumulation lemmas -/

theorem foldl_recStep (keys : List Int) (sel : Todo → Option Int) (k : Int) (hk : k ∈ keys) :
    ∀ (todos : List Todo) (m : Int → Nat),
      (todos.foldl (recStep keys sel) m) k
        = m k + todos.countP (fun t => decide (sel t = some k))
  | [], m => by simp
  | t :: todos, m => by
    rw [List.foldl_cons, foldl_recStep keys sel k hk todos (recStep keys sel m t),
      List.countP_cons]
    have hstep : (recStep keys sel m t) k
        = m k + (if decide (sel t = some k) = true then 1 else 0) := by
      cases hsel : sel t with
      | none => simp [recStep, hsel]
      | some d =>
        by_cases hd : d = k
        · subst hd
          simp [recStep, hsel, bumpIfKey, hk]
        · have hkd : ¬(k = d) := fun h => hd h.symm
          simp only [recStep, hsel, bumpIfKey]
          by_cases hmem : d ∈ keys
          · simp [hmem, hkd, hd]
          · simp [hmem, hd]
    rw [hstep]
    omega

theorem recCount_eq (keys : List Int) (sel : Todo → Option Int) (todos : List Todo)
    (k : Int) (hk : k ∈ keys) :
    recCount keys sel todos k = todos.countP (fun t => decide (sel t = some k)) := by
  simpa [recCount] using foldl_recStep keys sel k hk todos (fun _ => 0)

/-! ## C2: weekly aggregate -/

/-- A daily task with no due day (its effective due key is today). -/
def cexNoDue : Todo :=
  { id := "a", text := "x", done := false, createdAt := 0, category := Category.daily,
    doneAt := none, doneDay := none, dueDay := none, workoutPart := none }

/-- Counterexample to C2 as stated: `weekStats` does NOT default an absent
`dueDay` to today when counting "planned".  With today = day 0 (a Thursday,
so 0 is a key of its Monday-start week) and one task with no `dueDay`, the
stat for key 0 has `planned = 0`, while the number of tasks whose
dueDay-defaulting-to-today equals 0 is 1. -/
theorem weekStats_planned_counterexample :
    ∃ stat ∈ weekStats [cexNoDue] defaultPlan Category.daily 0,
      stat.key = 0 ∧ stat.planned = 0 ∧
      [cexNoDue].countP (fun t => decide (t.dueDay.getD 0 = 0)) = 1 := by
  decide

/-- C2 (amended): for every entry of the weekly aggregate, `planned` counts
exactly the tasks whose `dueDay` is present and equal to that entry's key
(tasks with absent `dueDay` are not counted toward any day), and `done`
counts exactly the tasks with `done = true` and `doneDay` equal to that key. -/
theorem weekStats_counts (todos : List Todo) (plan : WorkoutPlan) (cat : Category)
    (now : Int) (stat : WeekDayStat) (hstat : stat ∈ weekStats todos plan cat now) :
    stat.planned = todos.countP (fun t => decide (t.dueDay = some stat.key)) ∧
    stat.done = todos.countP (fun t => decide (t.done = true ∧ t.doneDay = some stat.key)) := by
  simp only [weekStats, List.mem_map] at hstat
  obtain ⟨k, hk, rfl⟩ := hstat
  constructor
  · show recCount (weekKeysMonSun now) dueSel todos k = _
    rw [recCount_eq _ _ _ _ hk]
    apply List.countP_congr
    intro t _
    simp [dueSel]
  · show recCount (weekKeysMonSun now) doneSel todos k = _
    rw [recCount_eq _ _ _ _ hk]
    apply List.countP_congr
    intro t _
    by_cases h : t.done = true <;> simp [doneSel, h]

/-- Witness for the amended C2 at a concrete collection and week entry. -/
theorem weekStats_counts_witness :
    ((⟨0, 0, 0, none⟩ : WeekDayStat) ∈ weekStats [cexNoDue] defaultPlan Category.daily 0) ∧
    ((0 : Nat) = [cexNoDue].countP (fun t => decide (t.dueDay = some 0)) ∧
     (0 : Nat) = [cexNoDue].countP (fun t => decide (t.done = true ∧ t.doneDay = some 0))) :=
  ⟨by decide,
    weekStats_counts [cexNoDue] defaultPlan Category.daily 0 ⟨0, 0, 0, none⟩ (by decide)⟩

/-! ## C7: the "today" filter -/

/-- Fixture for C7: a task with no due day. -/
def cexTodayTask : Todo :=
  { id := "a", text := "no due day", done := false, createdAt := 0, category := Category.daily,
    doneAt := none, doneDay := none, dueDay := none, workoutPart := none }

/-- Fixture for C7: a task due tomorrow relative to day 0. -/
def cexTomorrowTask : Todo :=
  { id := "b", text := "due tomorrow", done := false, createdAt := 0, category := Category.daily,
    doneAt := none, doneDay := none, dueDay := some 1, workoutPart := none }

/-- C7: the "today" filter selects exactly the tasks whose effective due key
(`dueDay`, defaulting to today when absent) equals today; in particular, on a
collection of one task with no `dueDay` and one due tomorrow it returns
exactly the first. -/
theorem visibleTodos_today_filter (todos : List Todo) (now : Int) :
    (∀ t : Todo, t ∈ visibleTodos todos Filter.today now ↔
      t ∈ todos ∧ t.dueDay.getD now = now) ∧
    visibleTodos [cexTodayTask, cexTomorrowTask] Filter.today 0 = [cexTodayTask] := by
  constructor
  · intro t
    simp [visibleTodos, mem_sortByLe, List.mem_filter]
  · decide

/-! ## Counting and cumulative-sum lemmas for the 14-day series -/

theorem countP_disjoint {α : Type} (p q : α → Bool)
    (h : ∀ a, ¬(p a = true ∧ q a = true)) :
    ∀ l : List α, l.countP (fun a => p a || q a) = l.countP p + l.countP q
  | [] => by simp
  | a :: l => by
    have hrec := countP_disjoint p q h l
    by_cases hp : p a = true
    · have hq : q a = false := by
        rcases Bool.eq_false_or_eq_true (q a) with h' | h'
        · exact absurd ⟨hp, h'⟩ (h a)
        · exact h'
      simp [List.countP_cons, hp, hq, hrec]
      omega
    · have hp' : p a = false := by revert hp; cases p a <;> simp
      by_cases hq : q a = true
      · simp [List.countP_cons, hp', hq, hrec]
        omega
      · have hq' : q a = false := by revert hq; cases q a <;> simp
        simp [List.countP_cons, hp', hq', hrec]

theorem sum_countP_nodup (sel : Todo → Option Int) (todos : List Todo) :
    ∀ keys : List Int, keys.Nodup →
      (keys.map (fun k => todos.countP (fun t => decide (sel t = some k)))).sum
        = todos.countP (fun t => decide (∃ k ∈ keys, sel t = some k))
  | [], _ => by simp
  | k0 :: ks, hnd => by
    have hk0 : k0 ∉ ks := (List.nodup_cons.mp hnd).1
    have ih := sum_countP_nodup sel todos ks (List.nodup_cons.mp hnd).2
    have hdisj : ∀ t : Todo,
        ¬(decide (sel t = some k0) = true ∧ decide (∃ k ∈ ks, sel t = some k) = true) := by
      rintro t ⟨h1, h2⟩
      simp only [decide_eq_true_eq] at h1 h2
      obtain ⟨k, hk, hsel⟩ := h2
      rw [h1] at hsel
      injection hsel with hsel
      subst hsel
      exact hk0 hk
    rw [List.map_cons, List.sum_cons, ih,
      ← countP_disjoint (fun t => decide (sel t = some k0))
        (fun t => decide (∃ k ∈ ks, sel t = some k)) hdisj todos]
    apply List.countP_congr
    intro t _
    simp only [Bool.or_eq_true, decide_eq_true_eq]
    constructor
    · rintro (h | ⟨k, hk, h⟩)
      · exact ⟨k0, List.mem_cons_self k0 ks, h⟩
      · exact ⟨k, List.mem_cons_of_mem _ hk, h⟩
    · rintro ⟨k, hk, h⟩
      rcases List.mem_cons.mp hk with rfl | hk'
      · exact Or.inl h
      · exact Or.inr ⟨k, hk', h⟩

theorem length_cumSum (acc : Nat) : ∀ l : List Nat, (cumSum acc l).length = l.length
  | [] => rfl
  | x :: xs => by simp [cumSum, length_cumSum (acc + x) xs]

theorem cumSum_ge (acc : Nat) : ∀ (l : List Nat), ∀ x ∈ cumSum acc l, acc ≤ x
  | [], x, hx => by simp [cumSum] at hx
  | y :: ys, x, hx => by
    simp only [cumSum, List.mem_cons] at hx
    rcases hx with rfl | hx
    · omega
    · have := cumSum_ge (acc + y) ys x hx
      omega

theorem pairwise_cumSum (acc : Nat) : ∀ l : List Nat, List.Pairwise (· ≤ ·) (cumSum acc l)
  | [] => List.Pairwise.nil
  | x :: xs => by
    simp only [cumSum]
    exact List.Pairwise.cons (fun y hy => cumSum_ge (acc + x) xs y hy)
      (pairwise_cumSum (acc + x) xs)

theorem getLast?_cumSum : ∀ (l : List Nat) (acc : Nat), l ≠ [] →
    (cumSum acc l).getLast? = some (acc + l.sum)
  | [], _, h => absurd rfl h
  | [x], acc, _ => by simp [cumSum]
  | x :: y :: l, acc, _ => by
    have ih := getLast?_cumSum (y :: l) (acc + x) (by simp)
    simp only [cumSum] at ih ⊢
    rw [List.getLast?_cons_cons, ih]
    congr 1
    simp [List.sum_cons]
    omega

/-! ## C4: the 14-day cumulative series -/

/-- C4: the 14-day series has exactly 14 values, is monotonically
non-decreasing, and its final value is the number of tasks with `done = true`
whose `doneDay` lies in the 14 calendar days ending today. -/
theorem last14_cumulative_spec (todos : List Todo) (now : Int) :
    (last14 todos now).length = 14 ∧
    List.Pairwise (· ≤ ·) (last14 todos now) ∧
    (last14 todos now).getLast? =
      some (todos.countP
        (fun t => decide (t.done = true ∧ ∃ d ∈ last14Keys now, t.doneDay = some d))) := by
  have hinj : Function.Injective (fun i : Nat => addDays now ((i : Int) - 13)) := by
    intro a b hab
    simp only [addDays] at hab
    omega
  have hnodup : (last14Keys now).Nodup := (List.nodup_range 14).map hinj
  refine ⟨?_, ?_, ?_⟩
  · simp only [last14]
    rw [length_cumSum, List.length_map]
    simp [last14Keys]
  · exact pairwise_cumSum 0 _
  · have hne : (last14Keys now).map (recCount (last14Keys now) doneSel todos) ≠ [] := by
      intro hcon
      have := congrArg List.length hcon
      simp [last14Keys] at this
    simp only [last14]
    rw [getLast?_cumSum _ 0 hne]
    refine congrArg some ?_
    rw [Nat.zero_add]
    have hmap : (last14Keys now).map (recCount (last14Keys now) doneSel todos)
        = (last14Keys now).map (fun k => todos.countP (fun t => decide (doneSel t = some k))) := by
      apply List.map_congr_left
      intro k hk
      exact recCount_eq _ _ _ _ hk
    rw [hmap, sum_countP_nodup doneSel todos _ hnodup]
    apply List.countP_congr
    intro t _
    by_cases h : t.done = true <;> simp [doneSel, h]

/-! ## Streak lemmas -/

theorem streakAux_le (s : List Int) : ∀ (fuel : Nat) (d : Int), streakAux s fuel d ≤ fuel
  | 0, _ => le_refl 0
  | fuel + 1, d => by
    simp only [streakAux]
    split
    · have := streakAux_le s fuel (d - 1)
      omega
    · omega

theorem streakAux_mem (s : List Int) :
    ∀ (fuel : Nat) (d : Int) (i : Nat), i < streakAux s fuel d → d - (i : Int) ∈ s
  | 0, d, i, h => by simp [streakAux] at h
  | fuel + 1, d, i, h => by
    simp only [streakAux] at h
    by_cases hd : d ∈ s
    · rw [if_pos hd] at h
      cases i with
      | zero => simpa using hd
      | succ j =>
        have hj : j < streakAux s fuel (d - 1) := by omega
        have hmem := streakAux_mem s fuel (d - 1) j hj
        have heq : d - ((j + 1 : Nat) : Int) = d - 1 - (j : Int) := by push_cast; ring
        rw [heq]
        exact hmem
    · rw [if_neg hd] at h
      omega

theorem streakAux_stable_fuel (s : List Int) :
    ∀ (fuel : Nat) (d : Int), streakAux s fuel d < fuel →
      d - (streakAux s fuel d : Int) ∉ s
  | 0, d, h => by simp [streakAux] at h
  | fuel + 1, d, h => by
    simp only [streakAux] at h ⊢
    by_cases hd : d ∈ s
    · rw [if_pos hd] at h ⊢
      have h' : streakAux s fuel (d - 1) < fuel := by omega
      have hrec := streakAux_stable_fuel s fuel (d - 1) h'
      have heq : d - ((streakAux s fuel (d - 1) + 1 : Nat) : Int)
          = d - 1 - (streakAux s fuel (d - 1) : Int) := by push_cast; ring
      rw [heq]
      exact hrec
    · rw [if_neg hd]
      simpa using hd

theorem streak_lt (todos : List Todo) (today : Int) :
    streak todos today < (doneDaysOf todos).length + 1 := by
  have hle := streakAux_le (doneDaysOf todos) ((doneDaysOf todos).length + 1) today
  rcases Nat.lt_or_ge (streakAux (doneDaysOf todos) ((doneDaysOf todos).length + 1) today)
      ((doneDaysOf todos).length + 1) with h | h
  · exact h
  · exfalso
    have heq : streakAux (doneDaysOf todos) ((doneDaysOf todos).length + 1) today
        = (doneDaysOf todos).length + 1 := le_antisymm hle h
    have hnd : ((List.range ((doneDaysOf todos).length + 1)).map
        (fun i : Nat => today - (i : Int))).Nodup := by
      refine (List.nodup_range _).map ?_
      intro a b hab
      have hab' : today - (a : Int) = today - (b : Int) := hab
      omega
    have hsub : ∀ x ∈ (List.range ((doneDaysOf todos).length + 1)).map
        (fun i : Nat => today - (i : Int)), x ∈ doneDaysOf todos := by
      intro x hx
      simp only [List.mem_map, List.mem_range] at hx
      obtain ⟨i, hi, rfl⟩ := hx
      have hi2 : i < streakAux (doneDaysOf todos) ((doneDaysOf todos).length + 1) today := by
        omega
      exact streakAux_mem (doneDaysOf todos) ((doneDaysOf todos).length + 1) today i hi2
    have hlen := (List.subperm_of_subset hnd hsub).length_le
    simp at hlen

theorem mem_doneDaysOf (todos : List Todo) (d : Int) :
    d ∈ doneDaysOf todos ↔ ∃ t ∈ todos, t.done = true ∧ t.doneDay = some d := by
  simp only [doneDaysOf, List.mem_filterMap]
  constructor
  · rintro ⟨t, ht, hf⟩
    by_cases h : t.done = true
    · rw [if_pos h] at hf
      exact ⟨t, ht, h, hf⟩
    · rw [if_neg h] at hf
      simp at hf
  · rintro ⟨t, ht, h1, h2⟩
    exact ⟨t, ht, by rw [if_pos h1]; exact h2⟩

/-! ## C3: the streak -/

/-- C3: the streak counts consecutive calendar days, walking backward from
today: every day strictly closer than the streak has a done task completed on
it, and the first day past the streak does not — so in particular when no
task was completed today the streak is 0 even if yesterday has a done task. -/
theorem streak_consecutive_days (todos : List Todo) (today : Int) :
    (∀ i : Nat, i < streak todos today →
      ∃ t ∈ todos, t.done = true ∧ t.doneDay = some (today - (i : Int))) ∧
    ¬∃ t ∈ todos, t.done = true ∧
      t.doneDay = some (today - (streak todos today : Int)) := by
  constructor
  · intro i hi
    exact (mem_doneDaysOf todos _).mp
      (streakAux_mem (doneDaysOf todos) ((doneDaysOf todos).length + 1) today i hi)
  · intro hcon
    exact streakAux_stable_fuel (doneDaysOf todos) ((doneDaysOf todos).length + 1) today
      (streak_lt todos today) ((mem_doneDaysOf todos _).mpr hcon)

/-! ## C8: the axis ceiling -/

/-- C8: `niceCeil` maps 7→10, 15→20, 37→50, 83→100, 150→200, 430→500,
1200→2000; and for every `n > 100` it returns 2, 5, or 10 times the largest
power of 10 not exceeding `n` (`p = 10 ^ log10 n`, with `p ≤ n < 10 * p`),
rounding the mantissa up: the result is at least `n`, and is the least of the
three candidates `2p, 5p, 10p` that is at least `n`. -/
theorem niceCeil_spec (n : Nat) (h : 100 < n) :
    (niceCeil 7 = 10 ∧ niceCeil 15 = 20 ∧ niceCeil 37 = 50 ∧ niceCeil 83 = 100 ∧
     niceCeil 150 = 200 ∧ niceCeil 430 = 500 ∧ niceCeil 1200 = 2000) ∧
    (niceCeil n = 2 * 10 ^ Nat.log 10 n ∨ niceCeil n = 5 * 10 ^ Nat.log 10 n ∨
      niceCeil n = 10 * 10 ^ Nat.log 10 n) ∧
    10 ^ Nat.log 10 n ≤ n ∧ n < 10 * 10 ^ Nat.log 10 n ∧ n ≤ niceCeil n ∧
    (∀ m ∈ [2 * 10 ^ Nat.log 10 n, 5 * 10 ^ Nat.log 10 n, 10 * 10 ^ Nat.log 10 n],
      n ≤ m → niceCeil n ≤ m) := by
  have l150 : Nat.log 10 150 = 2 :=
    Nat.log_eq_of_pow_le_of_lt_pow (by norm_num) (by norm_num)
  have l430 : Nat.log 10 430 = 2 :=
    Nat.log_eq_of_pow_le_of_lt_pow (by norm_num) (by norm_num)
  have l1200 : Nat.log 10 1200 = 3 :=
    Nat.log_eq_of_pow_le_of_lt_pow (by norm_num) (by norm_num)
  have hp_le : 10 ^ Nat.log 10 n ≤ n := Nat.pow_log_le_self 10 (by omega)
  have hp_lt : n < 10 * 10 ^ Nat.log 10 n := by
    have hlt := Nat.lt_pow_succ_log_self (show (1 : Nat) < 10 by norm_num) n
    rw [pow_succ] at hlt
    omega
  have hform : niceCeil n = (if n ≤ 2 * 10 ^ Nat.log 10 n then 2 * 10 ^ Nat.log 10 n
      else if n ≤ 5 * 10 ^ Nat.log 10 n then 5 * 10 ^ Nat.log 10 n
      else 10 * 10 ^ Nat.log 10 n) := by
    rw [niceCeil, if_neg (by omega), if_neg (by omega), if_neg (by omega), if_neg (by omega)]
  refine ⟨⟨by decide, by decide, by decide, by decide, by norm_num [niceCeil, l150],
    by norm_num [niceCeil, l430], by norm_num [niceCeil, l1200]⟩, ?_, hp_le, hp_lt, ?_, ?_⟩
  · rw [hform]
    by_cases h2 : n ≤ 2 * 10 ^ Nat.log 10 n
    · rw [if_pos h2]; exact Or.inl rfl
    · rw [if_neg h2]
      by_cases h5 : n ≤ 5 * 10 ^ Nat.log 10 n
      · rw [if_pos h5]; exact Or.inr (Or.inl rfl)
      · rw [if_neg h5]; exact Or.inr (Or.inr rfl)
  · rw [hform]
    by_cases h2 : n ≤ 2 * 10 ^ Nat.log 10 n
    · rw [if_pos h2]; exact h2
    · rw [if_neg h2]
      by_cases h5 : n ≤ 5 * 10 ^ Nat.log 10 n
      · rw [if_pos h5]; exact h5
      · rw [if_neg h5]; omega
  · intro m hm hnm
    rw [hform]
    simp only [List.mem_cons, List.not_mem_nil, or_false] at hm
    by_cases h2 : n ≤ 2 * 10 ^ Nat.log 10 n
    · rw [if_pos h2]
      rcases hm with rfl | rfl | rfl <;> omega
    · rw [if_neg h2]
      by_cases h5 : n ≤ 5 * 10 ^ Nat.log 10 n
      · rw [if_pos h5]
        rcases hm with rfl | rfl | rfl <;> omega
      · rw [if_neg h5]
        rcases hm with rfl | rfl | rfl <;> omega

/-- Witness for C8 at `n = 430`. -/
theorem niceCeil_spec_witness :
    (niceCeil 7 = 10 ∧ niceCeil 15 = 20 ∧ niceCeil 37 = 50 ∧ niceCeil 83 = 100 ∧
     niceCeil 150 = 200 ∧ niceCeil 430 = 500 ∧ niceCeil 1200 = 2000) ∧
    (niceCeil 430 = 2 * 10 ^ Nat.log 10 430 ∨ niceCeil 430 = 5 * 10 ^ Nat.log 10 430 ∨
      niceCeil 430 = 10 * 10 ^ Nat.log 10 430) ∧
    10 ^ Nat.log 10 430 ≤ 430 ∧ 430 < 10 * 10 ^ Nat.log 10 430 ∧ 430 ≤ niceCeil 430 ∧
    (∀ m ∈ [2 * 10 ^ Nat.log 10 430, 5 * 10 ^ Nat.log 10 430, 10 * 10 ^ Nat.log 10 430],
      430 ≤ m → niceCeil 430 ≤ m) :=
  niceCeil_spec 430 (by decide)

end TaskPulse
